import Mathlib

/-!
Verification of the LucianPets cognition core: a shallow embedding of the
memory store (`MPUComponent`, `src/unnamed/part_002`), the pattern resonance
engine and symbol encoder (`HASRComponent` / `SSPComponent`,
`src/server/src/lib/lucian/aetheron.js`), the behavior-loop store
(`GhostLoops`, `src/server/src/lib/lucian/ghostLoops.js`) and the curiosity
scheduler (`WonderEngine`, `src/server/src/lib/lucian/wonder.js`).

Numbers are modelled as rationals (the JS code computes with doubles, but
none of the verified properties hinges on rounding), JS `Map`s as
association lists in insertion order, and `Array.prototype.sort` as a
stable insertion sort, matching the stability the JS spec guarantees.
-/

namespace LucianPets

/-- JS `Map.get`: the value at the first entry with the given key. -/
def mapGet {α : Type} (l : List (String × α)) (k : String) : Option α :=
  match l with
  | [] => none
  | (k', v) :: rest => if k' = k then some v else mapGet rest k

/-- JS `Map.set`: update the first entry with the key in place (keeping its
position), else append a new entry at the end. -/
def mapSet {α : Type} (l : List (String × α)) (k : String) (v : α) : List (String × α) :=
  match l with
  | [] => [(k, v)]
  | (k', v') :: rest => if k' = k then (k, v) :: rest else (k', v') :: mapSet rest k v

theorem mapGet_mapSet_self {α : Type} (l : List (String × α)) (k : String) (v : α) :
    mapGet (mapSet l k v) k = some v := by
  induction l with
  | nil => simp [mapGet, mapSet]
  | cons p rest ih =>
    by_cases h : p.1 = k
    · simp [mapGet, mapSet, h]
    · simp [mapGet, mapSet, h, ih]

theorem mapGet_mapSet_ne {α : Type} (l : List (String × α)) (k k' : String) (v : α)
    (h : k' ≠ k) : mapGet (mapSet l k v) k' = mapGet l k' := by
  induction l with
  | nil => simp [mapGet, mapSet, Ne.symm h]
  | cons p rest ih =>
    by_cases hp : p.1 = k
    · simp [mapGet, mapSet, hp, Ne.symm h]
    · by_cases hp' : p.1 = k'
      · simp [mapGet, mapSet, hp, hp', h]
      · simp [mapGet, mapSet, hp, hp', ih]

theorem length_mapSet_of_get {α : Type} (l : List (String × α)) (k : String) (v v₀ : α)
    (h : mapGet l k = some v₀) : (mapSet l k v).length = l.length := by
  induction l with
  | nil => simp [mapGet] at h
  | cons p rest ih =>
    by_cases hp : p.1 = k
    · simp [mapSet, hp]
    · simp only [mapGet, hp, if_neg] at h
      simp [mapSet, hp, ih h]

/-- Insert `x` after every element `y` with `le y x = true`: the insertion
step of a stable insertion sort. With `le a b` standing for "comparator
`(a, b) ≤ 0`", this models the stable `Array.prototype.sort`. -/
def stableInsert {α : Type} (le : α → α → Bool) (x : α) : List α → List α
  | [] => [x]
  | y :: ys => if le y x = true then y :: stableInsert le x ys else x :: y :: ys

/-- Stable sort by a boolean "may stay before" relation, as JS `sort`. -/
def stableSortBy {α : Type} (le : α → α → Bool) (l : List α) : List α :=
  l.foldl (fun acc x => stableInsert le x acc) []

theorem mem_stableInsert {α : Type} (le : α → α → Bool) (x : α) (l : List α) (z : α) :
    z ∈ stableInsert le x l ↔ z = x ∨ z ∈ l := by
  induction l with
  | nil => simp [stableInsert]
  | cons y ys ih =>
    by_cases h : le y x = true
    · simp only [stableInsert, if_pos h, List.mem_cons, ih]
      tauto
    · simp only [stableInsert, if_neg h, List.mem_cons]

theorem stableInsert_perm {α : Type} (le : α → α → Bool) (x : α) (l : List α) :
    List.Perm (stableInsert le x l) (x :: l) := by
  induction l with
  | nil => simp [stableInsert]
  | cons y ys ih =>
    by_cases h : le y x = true
    · simp only [stableInsert, if_pos h]
      exact (ih.cons y).trans (List.Perm.swap x y ys)
    · simp [stableInsert, h]

theorem foldl_stableInsert_perm {α : Type} (le : α → α → Bool) (l acc : List α) :
    List.Perm (l.foldl (fun a x => stableInsert le x a) acc) (acc ++ l) := by
  induction l generalizing acc with
  | nil => simp
  | cons x xs ih =>
    have h1 : (x :: xs).foldl (fun a x => stableInsert le x a) acc
        = xs.foldl (fun a x => stableInsert le x a) (stableInsert le x acc) := by
      simp [List.foldl_cons]
    rw [h1]
    exact (ih _).trans
      (((stableInsert_perm le x acc).append_right xs).trans List.perm_middle.symm)

theorem stableSortBy_perm {α : Type} (le : α → α → Bool) (l : List α) :
    List.Perm (stableSortBy le l) l := by
  simpa [stableSortBy] using foldl_stableInsert_perm le l []

theorem length_stableSortBy {α : Type} (le : α → α → Bool) (l : List α) :
    (stableSortBy le l).length = l.length :=
  (stableSortBy_perm le l).length_eq

theorem stableInsert_pairwise {α : Type} (le : α → α → Bool)
    (htot : ∀ a b, le a b = true ∨ le b a = true)
    (htrans : ∀ a b c, le a b = true → le b c = true → le a c = true)
    (x : α) (l : List α) (h : l.Pairwise fun a b => le a b = true) :
    (stableInsert le x l).Pairwise (fun a b => le a b = true) := by
  induction l with
  | nil => simp [stableInsert]
  | cons y ys ih =>
    rw [List.pairwise_cons] at h
    by_cases hyx : le y x = true
    · simp only [stableInsert, if_pos hyx]
      rw [List.pairwise_cons]
      refine ⟨fun z hz => ?_, ih h.2⟩
      rcases (mem_stableInsert le x ys z).mp hz with rfl | hz'
      · exact hyx
      · exact h.1 z hz'
    · have hxy : le x y = true := (htot y x).resolve_left hyx
      simp only [stableInsert, if_neg hyx]
      rw [List.pairwise_cons]
      refine ⟨fun z hz => ?_, ?_⟩
      · rcases List.mem_cons.mp hz with rfl | hz'
        · exact hxy
        · exact htrans x y z hxy (h.1 z hz')
      · rw [List.pairwise_cons]
        exact h

theorem stableSortBy_pairwise {α : Type} (le : α → α → Bool)
    (htot : ∀ a b, le a b = true ∨ le b a = true)
    (htrans : ∀ a b c, le a b = true → le b c = true → le a c = true)
    (l : List α) :
    (stableSortBy le l).Pairwise (fun a b => le a b = true) := by
  suffices h : ∀ acc : List α, acc.Pairwise (fun a b => le a b = true) →
      (l.foldl (fun a x => stableInsert le x a) acc).Pairwise (fun a b => le a b = true) by
    exact h [] List.Pairwise.nil
  induction l with
  | nil => intro acc hacc; simpa using hacc
  | cons x xs ih =>
    intro acc hacc
    simpa [List.foldl_cons] using ih _ (stableInsert_pairwise le htot htrans x acc hacc)

namespace MPU

/-- A stored memory record, restricted to the fields the episodic store and
the forgetting sweep read (`MPUComponent`, `src/unnamed/part_002`). -/
structure Mem where
  importance : ℚ
  timestamp : ℤ
  lastRetrieved : Option ℤ
  deriving DecidableEq

/-- `config.importanceDecay` (0.99). -/
def importanceDecay : ℚ := 99 / 100

/-- Comparator `(a, b) => b.importance - a.importance` (importance descending)
as a boolean "may stay before" relation: `a` stays before `b` iff the
comparator result is `≤ 0`, i.e. `b.importance ≤ a.importance`. -/
def byImportanceDesc (a b : Mem) : Bool := decide (b.importance ≤ a.importance)

/-- Comparator `(a, b) => b.timestamp - a.timestamp` (timestamp descending). -/
def byTimestampDesc (a b : Mem) : Bool := decide (b.timestamp ≤ a.timestamp)

/-- `storeEpisodicMemory`, with the capacity as a parameter (the source reads
`this.config.maxEpisodic = 1000`): push the record, and if the partition is
now over the cap, sort by importance descending, truncate to the cap, then
sort by timestamp descending. -/
def storeEpisodicMemory (cap : ℕ) (mems : List Mem) (m : Mem) : List Mem :=
  let l := mems ++ [m]
  if l.length > cap then
    stableSortBy byTimestampDesc ((stableSortBy byImportanceDesc l).take cap)
  else l

/-- One record's decay step of the forgetting sweep
(`memory.importance *= this.config.importanceDecay`). -/
def decayMemory (m : Mem) : Mem := { m with importance := m.importance * importanceDecay }

/-- The `shouldForget` condition of `forgetUnimportantMemories`, evaluated on
the already-decayed record: importance under 0.1 and never retrieved or not
retrieved within the last 86400000 ms. -/
def shouldForget (now : ℤ) (m : Mem) : Bool :=
  decide (m.importance < 1 / 10) &&
    (match m.lastRetrieved with
     | none => true
     | some t => decide (now - t > 86400000))

/-- `forgetUnimportantMemories`: the JS filter callback first decays each
record's importance in place, then keeps the record unless `shouldForget`;
the net effect is a map followed by a filter. -/
def forgetUnimportantMemories (now : ℤ) (mems : List Mem) : List Mem :=
  (mems.map decayMemory).filter (fun m => ! shouldForget now m)

/-- The fields of an incoming memory object that `calculateImportance` reads:
whether `memory.emotion` is set, the `type` string, whether `memory.context`
mentions "owner" or "user", and `memory.novelty`. -/
structure MemInput where
  hasEmotion : Bool
  type : String
  contextMentionsOwnerOrUser : Bool
  novelty : ℚ

/-- `calculateImportance`: base 0.5, plus 0.2 for emotion, 0.3 for
learning/achievement, 0.2 for owner context, 0.2 for novelty above 0.7,
clamped from above at 1. -/
def calculateImportance (m : MemInput) : ℚ :=
  let i0 : ℚ := 1 / 2
  let i1 := if m.hasEmotion then i0 + 1 / 5 else i0
  let i2 := if m.type = "learning" ∨ m.type = "achievement" then i1 + 3 / 10 else i1
  let i3 := if m.contextMentionsOwnerOrUser then i2 + 1 / 5 else i2
  let i4 := if m.novelty > 7 / 10 then i3 + 1 / 5 else i3
  min 1 i4

/-- A semantic record, restricted to the fields the merge writes explicitly
(`strength`, `connections`); the object spread of `storeSemanticMemory`
copies the incoming record's remaining fields unchanged. `strength` is an
`Option` because `existing.strength || 1` treats a missing or zero strength
as 1. -/
structure SemMem where
  strength : Option ℚ
  connections : List String
  deriving DecidableEq

/-- JS `x.strength || 1`: a missing (or zero) strength counts as 1. -/
def strengthOrOne (s : Option ℚ) : ℚ :=
  match s with
  | none => 1
  | some x => if x = 0 then 1 else x

/-- The merge of `storeSemanticMemory`: strength accumulates by 0.1 on top of
`existing.strength || 1`, and the two `connections` arrays are concatenated
(spread into one array, duplicates kept). -/
def mergeSem (existing memory : SemMem) : SemMem :=
  { strength := some (strengthOrOne existing.strength + 1 / 10)
    connections := existing.connections ++ memory.connections }

/-- Comparator `(a, b) => (b[1].strength || 1) - (a[1].strength || 1)`. -/
def bySemStrengthDesc (a b : String × SemMem) : Bool :=
  decide (strengthOrOne b.2.strength ≤ strengthOrOne a.2.strength)

/-- `storeSemanticMemory`, with the derived key (`memory.concept ||
memory.content?.concept || a timestamped fallback`) and the capacity
(`config.maxSemantic = 500`) as parameters: merge into an existing same-key
entry, else insert; then, if over the cap, keep the strongest entries
(sorted by strength descending). -/
def storeSemanticMemory (cap : ℕ) (sem : List (String × SemMem))
    (key : String) (memory : SemMem) : List (String × SemMem) :=
  let sem1 :=
    match mapGet sem key with
    | some existing => mapSet sem key (mergeSem existing memory)
    | none => mapSet sem key memory
  if sem1.length > cap then (stableSortBy bySemStrengthDesc sem1).take cap
  else sem1

end MPU

/-- All index pairs `i < j` of a list, in the order of the nested
`for (i) for (j = i + 1)` loops. -/
def orderedPairs {α : Type} : List α → List (α × α)
  | [] => []
  | x :: xs => xs.map (fun y => (x, y)) ++ orderedPairs xs

namespace HASR

/-- `config.reinforcementFactor` (1.2) of the HASR component. -/
def reinforcementFactor : ℚ := 6 / 5

/-- A stored pattern (`HASRComponent`): `template` and each instance's
`features` are JS arrays of feature strings. -/
structure Pattern where
  template : List String
  strength : ℚ
  confidence : ℚ
  instances : List (List String)
  deriving DecidableEq

/-- Append `x` if not yet present: the insertion step behind the first-seen
iteration order of a JS `Map`/`Set`. -/
def insertUniq (l : List String) (x : String) : List String :=
  if x ∈ l then l else l ++ [x]

/-- The distinct elements of a list in order of first occurrence — the JS
`Map`/`Set` iteration order used by `findCommonFeatures`'s `featureCounts`. -/
def firstDedup (l : List String) : List String := l.foldl insertUniq []

/-- `findCommonFeatures`: count every feature occurrence over all instances
(a feature repeated inside one instance counts each time, as in the source)
and keep the features whose count reaches `instances.length * 0.5`. -/
def findCommonFeatures (instances : List (List String)) : List String :=
  if instances = [] then []
  else
    (firstDedup instances.flatten).filter
      (fun f => decide ((instances.flatten.count f : ℚ) ≥ (instances.length : ℚ) * (1 / 2)))

/-- The JS `Set` size of all features over all instances. -/
def distinctFeatureCount (instances : List (List String)) : ℕ :=
  (firstDedup instances.flatten).length

/-- `calculatePatternConfidence`: 0.5 for fewer than two instances, else
`consistency * 0.7 + experienceFactor * 0.3` with
`consistency = template.length / allFeatures.size` and
`experienceFactor = min(1, instances.length / 10)`. -/
def calculatePatternConfidence (p : Pattern) : ℚ :=
  if p.instances.length < 2 then 1 / 2
  else
    (p.template.length : ℚ) / (distinctFeatureCount p.instances : ℚ) * (7 / 10)
      + min 1 ((p.instances.length : ℚ) / 10) * (3 / 10)

/-- `strengthenPattern` restricted to the matched pattern record itself:
push the instance, clamp-bump strength, recompute the template only when
there is more than one instance, then recompute confidence. (The final
`reinforceConnections` call mutates *other* patterns; see
`reinforceConnectionStep`.) -/
def strengthenPattern (p : Pattern) (newInstance : List String) : Pattern :=
  let p1 := { p with instances := p.instances ++ [newInstance] }
  let p2 := { p1 with strength := min 1 (p1.strength * reinforcementFactor) }
  let p3 :=
    if p2.instances.length > 1 then { p2 with template := findCommonFeatures p2.instances }
    else p2
  { p3 with confidence := calculatePatternConfidence p3 }

/-- The update `reinforceConnections` applies to each connected pattern's
strength: `connectedPattern.strength *= (1 + connection.strength * 0.1)` —
with no clamp. -/
def reinforceConnectionStep (strength connStrength : ℚ) : ℚ :=
  strength * (1 + connStrength * (1 / 10))

/-- JS `pattern2.confidence || 1`: a missing (or zero) confidence counts as 1. -/
def confidenceOrOne (c : Option ℚ) : ℚ :=
  match c with
  | none => 1
  | some x => if x = 0 then 1 else x

/-- `calculateResonance`: Jaccard similarity (intersection size over union
size) of the two feature sets, times `pattern2.confidence || 1`; 0 when the
union is empty. -/
def calculateResonance (features template : List String) (confidence : Option ℚ) : ℚ :=
  let f1 := features.toFinset
  let f2 := template.toFinset
  let inter := f1 ∩ f2
  let unionSet := f1 ∪ f2
  if unionSet.card = 0 then 0
  else ((inter.card : ℚ) / (unionSet.card : ℚ)) * confidenceOrOne confidence

/-- Modelled from the spec: the confidence formula the spec states,
`(template-size ÷ distinct-feature-count) × 0.7 + min(1, instanceCount/10) × 0.3`,
kept separate so theorems can compare the code's confidence against it. -/
def specConfidenceFormula (templateSize distinctCount instanceCount : ℕ) : ℚ :=
  (templateSize : ℚ) / (distinctCount : ℚ) * (7 / 10)
    + min 1 ((instanceCount : ℚ) / 10) * (3 / 10)

end HASR

namespace SSP

/-- The key of a binding in `createBindings`:
`` `${symbols[i].concept}_${symbols[j].concept}` `` — the *ordered*
concatenation of the two concepts in their list order. -/
def bindingKey (a b : String) : String := a ++ "_" ++ b

/-- One binding update of `createBindings`: create the key at 0 if absent,
then add 0.1, capped at 1. -/
def bindPair (bindings : List (String × ℚ)) (a b : String) : List (String × ℚ) :=
  let key := bindingKey a b
  let current := (mapGet bindings key).getD 0
  mapSet bindings key (min 1 (current + 1 / 10))

/-- `createBindings` over the concepts of the symbols produced by one
`encode` call: every index pair `i < j` strengthens its ordered-key binding. -/
def createBindings (bindings : List (String × ℚ)) (concepts : List String) :
    List (String × ℚ) :=
  (orderedPairs concepts).foldl (fun acc p => bindPair acc p.1 p.2) bindings

end SSP

namespace GhostLoops

/-- `config.reinforcementBonus` (0.1). -/
def reinforcementBonus : ℚ := 1 / 10

/-- A crystallized behavior loop, restricted to the fields `reinforceLoop`
touches. -/
structure Loop where
  strength : ℚ
  successCount : ℕ
  failureCount : ℕ
  deriving DecidableEq

/-- `reinforceLoop`: a missing `loopId` is a no-op; on success the strength
gains the bonus capped at 1 and `successCount` increments; on failure the
strength loses half the bonus floored at 0.1 and `failureCount` increments. -/
def reinforceLoop (loops : List (String × Loop)) (loopId : String) (success : Bool) :
    List (String × Loop) :=
  match mapGet loops loopId with
  | none => loops
  | some loop =>
    if success then
      mapSet loops loopId
        { loop with
          successCount := loop.successCount + 1
          strength := min 1 (loop.strength + reinforcementBonus) }
    else
      mapSet loops loopId
        { loop with
          failureCount := loop.failureCount + 1
          strength := max (1 / 10) (loop.strength - reinforcementBonus * (1 / 2)) }

end GhostLoops

namespace Wonder

/-- A symbol as the Wonder engine reads it: only `concept` is consulted. -/
structure Symbol where
  concept : String
  deriving DecidableEq

/-- A Discovery record of the Wonder engine. -/
structure Discovery where
  concept : String
  firstSeen : ℤ
  encounters : ℕ
  familiarity : ℚ
  associations : List String
  emotionalValue : ℚ
  deriving DecidableEq

/-- An interest-map entry. -/
structure Interest where
  level : ℚ
  experiences : ℕ
  lastTriggered : ℤ
  deriving DecidableEq

/-- An Exploration record; `id` carries the `Date.now()` of
`` `explore_${Date.now()}` ``. -/
structure Exploration where
  id : ℤ
  symbols : List Symbol
  timestamp : ℤ
  depth : ℕ
  path : List ℤ
  curiosityLevel : ℚ
  category : Option String
  deriving DecidableEq

/-- The `WonderEngine` state that `explore` and its helpers read and write.
The curiosity history stores `{level, timestamp}` pairs. -/
structure WonderState where
  curiosityLevel : ℚ
  explorationQueue : List Exploration
  discoveries : List (String × Discovery)
  interestMap : List (String × Interest)
  lastWonderTime : ℤ
  curiosityHistory : List (ℚ × ℤ)
  statsTotalExplorations : ℕ
  statsWonderMoments : ℕ
  statsDiscoveries : ℕ
  deriving DecidableEq

/-- `config.noveltyThreshold` (0.7). -/
def noveltyThreshold : ℚ := 7 / 10

/-- `config.curiosityBoost` (0.15). -/
def curiosityBoost : ℚ := 3 / 20

/-- `config.wonderCooldown` (5000 ms). -/
def wonderCooldown : ℤ := 5000

/-- `config.maxQueueSize` (20). -/
def maxQueueSize : ℕ := 20

/-- `config.explorationDepth` (3). -/
def explorationDepth : ℕ := 3

/-- Whether `pat` occurs as a contiguous run of `l` — the character-level
content of JS `String.prototype.includes`. -/
def charsHaveSub (pat : List Char) : List Char → Bool
  | [] => pat.isEmpty
  | c :: rest => pat.isPrefixOf (c :: rest) || charsHaveSub pat rest

/-- JS `s.includes(pat)`. -/
def strIncludes (s pat : String) : Bool := charsHaveSub pat.toList s.toList

/-- `isNovel`: a `null` or empty symbol list is never novel; otherwise the
product of `(1 - familiarity)` over the already-discovered symbols must
exceed the novelty threshold. -/
def isNovel (discoveries : List (String × Discovery)) (symbols : Option (List Symbol)) :
    Bool :=
  match symbols with
  | none => false
  | some syms =>
    if syms.length = 0 then false
    else
      let noveltyScore := syms.foldl
        (fun acc s =>
          match mapGet discoveries s.concept with
          | some d => acc * (1 - d.familiarity)
          | none => acc) 1
      decide (noveltyScore > noveltyThreshold)

/-- `canWonder`: enough time has passed since the last wonder moment. -/
def canWonder (s : WonderState) (now : ℤ) : Bool :=
  decide (now - s.lastWonderTime > wonderCooldown)

/-- The interest categories, in declaration order. -/
def interestCategories : List String :=
  ["visual_patterns", "sounds", "movements", "objects",
   "interactions", "environments", "emotions", "games"]

/-- The per-symbol score of `calculateCategoryMatch`'s `switch`: categories
without a `case` (environments, games) fall to the 0.1 default. -/
def categoryScoreFor (category concept : String) : ℚ :=
  if category = "visual_patterns" then
    if strIncludes concept "visual" || strIncludes concept "color"
        || strIncludes concept "shape" then 1 else 0
  else if category = "sounds" then
    if strIncludes concept "audio" || strIncludes concept "sound"
        || strIncludes concept "voice" then 1 else 0
  else if category = "movements" then
    if strIncludes concept "move" || strIncludes concept "motion"
        || strIncludes concept "action" then 1 else 0
  else if category = "objects" then
    if strIncludes concept "object" || strIncludes concept "thing"
        || strIncludes concept "item" then 1 else 0
  else if category = "interactions" then
    if strIncludes concept "play" || strIncludes concept "feed"
        || strIncludes concept "pet" then 1 else 0
  else if category = "emotions" then
    if strIncludes concept "happy" || strIncludes concept "sad"
        || strIncludes concept "emotion" then 1 else 0
  else 1 / 10

/-- `calculateCategoryMatch`: summed per-symbol scores over the symbol count.
(For an empty symbol list the JS quotient is `NaN`, which never beats the
running best in `categorizeExploration`; the rational quotient is 0, with
the same effect.) -/
def calculateCategoryMatch (symbols : List Symbol) (category : String) : ℚ :=
  (symbols.foldl (fun acc s => acc + categoryScoreFor category s.concept) 0)
    / (symbols.length : ℚ)

/-- `categorizeExploration`: the first category with the strictly best
positive score, `none` when no score beats 0. -/
def categorizeExploration (symbols : List Symbol) : Option String :=
  (interestCategories.foldl
    (fun (best : Option String × ℚ) cat =>
      let score := calculateCategoryMatch symbols cat
      if score > best.2 then (some cat, score) else best)
    (none, 0)).1

/-- `addToQueue`: push, drop the oldest when over `maxQueueSize`, count the
exploration. -/
def addToQueue (s : WonderState) (e : Exploration) : WonderState :=
  let q := s.explorationQueue ++ [e]
  let q' := if q.length > maxQueueSize then q.tail else q
  { s with
    explorationQueue := q'
    statsTotalExplorations := s.statsTotalExplorations + 1 }

/-- `boostCuriosity`: raise the level capped at 1, push it onto the history,
cap the history at 100 entries. -/
def boostCuriosity (s : WonderState) (now : ℤ) (amount : ℚ) : WonderState :=
  let level := min 1 (s.curiosityLevel + amount)
  let hist := s.curiosityHistory ++ [(level, now)]
  let hist' := if hist.length > 100 then hist.tail else hist
  { s with curiosityLevel := level, curiosityHistory := hist' }

/-- `updateInterest`: clamp the level into [0, 1] after the change, count the
experience; unknown categories are ignored. -/
def updateInterest (s : WonderState) (category : String) (change : ℚ) (now : ℤ) :
    WonderState :=
  match mapGet s.interestMap category with
  | none => s
  | some i =>
    { s with
      interestMap := mapSet s.interestMap category
        { level := max 0 (min 1 (i.level + change))
          experiences := i.experiences + 1
          lastTriggered := now } }

/-- `calculateEmotionalValue`: 0.5 base, ±0.3 for positive/negative concept
substrings, +0.1 novelty bonus, clamped into [0, 1]. -/
def calculateEmotionalValue (sym : Symbol) : ℚ :=
  let v : ℚ := 1 / 2
  let v1 := if strIncludes sym.concept "play" || strIncludes sym.concept "food"
      || strIncludes sym.concept "joy" then v + 3 / 10 else v
  let v2 := if strIncludes sym.concept "danger" || strIncludes sym.concept "fear"
      || strIncludes sym.concept "pain" then v1 - 3 / 10 else v1
  max 0 (min 1 (v2 + 1 / 10))

/-- The per-symbol body of `processExploration`'s `forEach`: record a first
encounter (familiarity 0.1), or update an existing discovery (increment
encounters, bump familiarity capped at 1, damp curiosity by the *updated*
familiarity). -/
def processSymbol (s : WonderState) (now : ℤ) (sym : Symbol) : WonderState :=
  match mapGet s.discoveries sym.concept with
  | none =>
    let d : Discovery :=
      { concept := sym.concept
        firstSeen := now
        encounters := 1
        familiarity := 1 / 10
        associations := []
        emotionalValue := calculateEmotionalValue sym }
    { s with
      discoveries := mapSet s.discoveries sym.concept d
      statsDiscoveries := s.statsDiscoveries + 1 }
  | some d =>
    let fam := min 1 (d.familiarity + 1 / 10)
    let d' := { d with encounters := d.encounters + 1, familiarity := fam }
    { s with
      discoveries := mapSet s.discoveries sym.concept d'
      curiosityLevel := s.curiosityLevel * (1 - fam * (1 / 10)) }

/-- One direction of `createAssociations`'s pair body: append `c2` to `c1`'s
associations when `c1` is discovered and does not list `c2` yet. -/
def addAssociation (discoveries : List (String × Discovery)) (c1 c2 : String) :
    List (String × Discovery) :=
  match mapGet discoveries c1 with
  | none => discoveries
  | some d =>
    if c2 ∈ d.associations then discoveries
    else mapSet discoveries c1 { d with associations := d.associations ++ [c2] }

/-- `createAssociations`: for every symbol pair `i < j`, associate both ways. -/
def createAssociations (discoveries : List (String × Discovery)) (symbols : List Symbol) :
    List (String × Discovery) :=
  (orderedPairs symbols).foldl
    (fun acc p =>
      addAssociation (addAssociation acc p.1.concept p.2.concept) p.2.concept p.1.concept)
    discoveries

/-- `processExploration`'s synchronous effect: record or update a Discovery
per symbol, then build cross-symbol associations. The deeper-exploration
recursion is scheduled through `setTimeout` and runs only after `explore`
returns, so it is not part of this step. -/
def processExploration (s : WonderState) (now : ℤ) (e : Exploration) : WonderState :=
  let s1 := e.symbols.foldl (fun acc sym => processSymbol acc now sym) s
  { s1 with discoveries := createAssociations s1.discoveries e.symbols }

/-- `explore`, with `Date.now()` passed in as `now`: `none` and an untouched
state while still inside the cooldown; otherwise build the Exploration
record, enqueue it, boost curiosity, update the category interest, record
the wonder moment (`lastWonderTime = now`), process the exploration, and
return the record. -/
def explore (s : WonderState) (now : ℤ) (symbols : List Symbol) :
    Option Exploration × WonderState :=
  if canWonder s now = true then
    let e : Exploration :=
      { id := now
        symbols := symbols
        timestamp := now
        depth := 0
        path := []
        curiosityLevel := s.curiosityLevel
        category := categorizeExploration symbols }
    let s1 := addToQueue s e
    let s2 := boostCuriosity s1 now curiosityBoost
    let s3 :=
      match e.category with
      | some cat => updateInterest s2 cat (1 / 10) now
      | none => s2
    let s4 := { s3 with
      lastWonderTime := now
      statsWonderMoments := s3.statsWonderMoments + 1 }
    (some e, processExploration s4 now e)
  else (none, s)

end Wonder

/-! ### Helper lemmas -/

theorem shouldForget_iff (now : ℤ) (m : MPU.Mem) :
    MPU.shouldForget now m = true ↔
      (m.importance < 1 / 10 ∧
        (m.lastRetrieved = none ∨ ∃ t, m.lastRetrieved = some t ∧ now - t > 86400000)) := by
  cases h : m.lastRetrieved with
  | none => simp [MPU.shouldForget, h]
  | some t => simp [MPU.shouldForget, h]

/-! ### C5 -/

/-- C5: on each forgetting sweep every episodic record's importance is
multiplied by the decay factor (a surviving record is the decayed image of a
stored one), and a record survives iff it is not the case that its (decayed)
importance is below the 0.1 floor and it was never retrieved or last
retrieved more than 86400000 ms ago. -/
theorem forget_sweep_decays_and_purges_iff (now : ℤ) (mems : List MPU.Mem) (r : MPU.Mem) :
    r ∈ MPU.forgetUnimportantMemories now mems ↔
      ((∃ m ∈ mems, MPU.decayMemory m = r) ∧
       ¬ (r.importance < 1 / 10 ∧
          (r.lastRetrieved = none ∨ ∃ t, r.lastRetrieved = some t ∧ now - t > 86400000))) := by
  simp only [MPU.forgetUnimportantMemories, List.mem_filter, List.mem_map,
    Bool.not_eq_true', ← shouldForget_iff now r]
  constructor
  · rintro ⟨h1, h2⟩
    exact ⟨h1, by simp [h2]⟩
  · rintro ⟨h1, h2⟩
    exact ⟨h1, by simpa using h2⟩

/-! ### C7 -/

/-- C7: `reinforceLoop` on an existing loop updates exactly that loop —
success adds the bonus to its strength capped at 1 and increments
`successCount`; failure subtracts half the bonus floored at 0.1 and
increments `failureCount` — and any other loop id reads back unchanged. -/
theorem reinforce_loop_updates (loops : List (String × GhostLoops.Loop))
    (loopId otherId : String) (loop : GhostLoops.Loop) (success : Bool)
    (hl : mapGet loops loopId = some loop) (hne : otherId ≠ loopId) :
    mapGet (GhostLoops.reinforceLoop loops loopId success) loopId =
      some (if success then
              { loop with
                successCount := loop.successCount + 1
                strength := min 1 (loop.strength + GhostLoops.reinforcementBonus) }
            else
              { loop with
                failureCount := loop.failureCount + 1
                strength := max (1 / 10) (loop.strength - GhostLoops.reinforcementBonus * (1 / 2)) }) ∧
    mapGet (GhostLoops.reinforceLoop loops loopId success) otherId = mapGet loops otherId := by
  cases success <;>
    simp only [GhostLoops.reinforceLoop, hl, if_true, if_false, Bool.false_eq_true] <;>
    exact ⟨mapGet_mapSet_self _ _ _, mapGet_mapSet_ne _ _ _ _ hne⟩

/-- Witness for C7: a concrete two-loop store; reinforcing `loopA` with
success yields the bumped record and leaves `loopB` unread. -/
theorem reinforce_loop_witness :
    mapGet (GhostLoops.reinforceLoop
        [("loopA", ⟨1/2, 0, 0⟩), ("loopB", ⟨1/3, 2, 3⟩)] "loopA" true) "loopA" =
      some { (⟨1/2, 0, 0⟩ : GhostLoops.Loop) with
             successCount := 1
             strength := min 1 ((1 : ℚ)/2 + GhostLoops.reinforcementBonus) } ∧
    mapGet (GhostLoops.reinforceLoop
        [("loopA", ⟨1/2, 0, 0⟩), ("loopB", ⟨1/3, 2, 3⟩)] "loopA" true) "loopB" =
      mapGet [("loopA", (⟨1/2, 0, 0⟩ : GhostLoops.Loop)), ("loopB", ⟨1/3, 2, 3⟩)] "loopB" :=
  reinforce_loop_updates [("loopA", ⟨1/2, 0, 0⟩), ("loopB", ⟨1/3, 2, 3⟩)] "loopA" "loopB"
    ⟨1/2, 0, 0⟩ true (by simp [mapGet]) (by decide)

/-! ### C8 -/

/-- Counterexample for C8: encoding the same two symbols in the other order
strengthens a *different* binding — the key is the ordered concatenation, so
`["A", "B"]` writes `A_B` while `["B", "A"]` leaves `A_B` absent. -/
theorem bindings_depend_on_order :
    mapGet (SSP.createBindings [] ["A", "B"]) "A_B" = some (1/10) ∧
    mapGet (SSP.createBindings [] ["B", "A"]) "A_B" = none ∧
    mapGet (SSP.createBindings [] ["B", "A"]) "B_A" = some (1/10) := by
  refine ⟨?_, ?_, ?_⟩ <;>
    norm_num +decide [SSP.createBindings, SSP.bindPair, SSP.bindingKey, orderedPairs,
      mapGet, mapSet]

/-- C8 (amended): a binding is keyed by the *ordered* pair of concepts in
their list order; a co-occurrence strengthens that key's binding by 0.1
capped at 1.0 and leaves the reversed key untouched. -/
theorem binding_ordered_increment (b : List (String × ℚ)) (a c : String)
    (h : SSP.bindingKey a c ≠ SSP.bindingKey c a) :
    mapGet (SSP.createBindings b [a, c]) (SSP.bindingKey a c) =
      some (min 1 ((mapGet b (SSP.bindingKey a c)).getD 0 + 1 / 10)) ∧
    mapGet (SSP.createBindings b [a, c]) (SSP.bindingKey c a) =
      mapGet b (SSP.bindingKey c a) ∧
    min 1 ((mapGet b (SSP.bindingKey a c)).getD 0 + 1 / 10) ≤ 1 := by
  have hcb : SSP.createBindings b [a, c] = SSP.bindPair b a c := by
    simp [SSP.createBindings, orderedPairs]
  refine ⟨?_, ?_, min_le_left _ _⟩
  · rw [hcb]
    simpa [SSP.bindPair] using mapGet_mapSet_self b (SSP.bindingKey a c) _
  · rw [hcb]
    simpa [SSP.bindPair] using
      mapGet_mapSet_ne b (SSP.bindingKey a c) (SSP.bindingKey c a) _ (Ne.symm h)

/-- Witness for C8: the concrete symbols `A`, `B` on an empty binding store. -/
theorem binding_ordered_witness :
    mapGet (SSP.createBindings [] ["A", "B"]) (SSP.bindingKey "A" "B") =
      some (min 1 ((mapGet [] (SSP.bindingKey "A" "B")).getD 0 + 1 / 10)) ∧
    mapGet (SSP.createBindings [] ["A", "B"]) (SSP.bindingKey "B" "A") =
      mapGet ([] : List (String × ℚ)) (SSP.bindingKey "B" "A") ∧
    min 1 ((mapGet ([] : List (String × ℚ)) (SSP.bindingKey "A" "B")).getD 0 + 1 / 10) ≤ 1 :=
  binding_ordered_increment [] "A" "B" (by decide)

/-! ### C10 -/

/-- C10: `isNovel` is `false` for an absent (`null`) or empty symbol list, so
an input carrying no symbols never starts the novelty path. -/
theorem isNovel_empty_or_absent_false (discoveries : List (String × Wonder.Discovery)) :
    Wonder.isNovel discoveries none = false ∧
    Wonder.isNovel discoveries (some []) = false :=
  ⟨rfl, rfl⟩

/-! ### C1 -/

/-- Counterexample for C1: `reinforceConnections` does *not* clamp — a
connected pattern at strength 1.0 (the base patterns are seeded at 1.0)
linked by a connection of strength 0.5 (a resonance, which only needs to
exceed 0.3) is pushed to 1.05 > 1. -/
theorem reinforce_connections_exceeds_one :
    HASR.reinforceConnectionStep 1 (1/2) = 21/20 ∧ (1 : ℚ) < 21/20 := by
  constructor
  · norm_num [HASR.reinforceConnectionStep]
  · norm_num

/-- C1 (amended): stored-record importance stays in `[0, 1]`: the importance
computed by `calculateImportance` is clamped into `[0, 1]` (in fact
`[0.5, 1]`), and every record surviving a forgetting sweep keeps an
importance in `[0, 1]` when all stored importances were in `[0, 1]` — but
the pattern-strength update of `reinforceConnections` is *not* clamped (see
`reinforce_connections_exceeds_one`). -/
theorem importance_in_unit_after_store_and_decay (m : MPU.MemInput) (now : ℤ)
    (mems : List MPU.Mem) (r : MPU.Mem)
    (hmems : ∀ x ∈ mems, 0 ≤ x.importance ∧ x.importance ≤ 1)
    (hr : r ∈ MPU.forgetUnimportantMemories now mems) :
    (0 ≤ MPU.calculateImportance m ∧ MPU.calculateImportance m ≤ 1) ∧
    (0 ≤ r.importance ∧ r.importance ≤ 1) := by
  constructor
  · unfold MPU.calculateImportance
    refine ⟨le_min (by norm_num) ?_, min_le_left _ _⟩
    split_ifs <;> norm_num
  · simp only [MPU.forgetUnimportantMemories, List.mem_filter, List.mem_map] at hr
    obtain ⟨⟨m0, hm0, rfl⟩, -⟩ := hr
    have hb := hmems m0 hm0
    simp only [MPU.decayMemory, MPU.importanceDecay]
    constructor
    · exact mul_nonneg hb.1 (by norm_num)
    · calc m0.importance * (99 / 100) ≤ 1 * 1 :=
        mul_le_mul hb.2 (by norm_num) (by norm_num) (by norm_num)
      _ = 1 := by norm_num

/-- Witness for C1: a concrete memory input and a one-record store the decay
sweep keeps. -/
theorem importance_in_unit_witness :
    (0 ≤ MPU.calculateImportance ⟨true, "learning", true, 1⟩ ∧
      MPU.calculateImportance ⟨true, "learning", true, 1⟩ ≤ 1) ∧
    (0 ≤ (MPU.Mem.mk (99/200) 5 none).importance ∧
      (MPU.Mem.mk (99/200) 5 none).importance ≤ 1) :=
  importance_in_unit_after_store_and_decay ⟨true, "learning", true, 1⟩ 0
    [⟨1/2, 5, none⟩] ⟨99/200, 5, none⟩
    (by intro x hx; simp only [List.mem_singleton] at hx; subst hx; constructor <;> norm_num)
    (by norm_num [MPU.forgetUnimportantMemories, MPU.decayMemory, MPU.importanceDecay,
      MPU.shouldForget])

/-! ### C2 -/

/-- Counterexample for C2: resonance of a stored pattern against its own
template is the pattern's confidence, not 1.0 — the base pattern `rest`
(template `[calm, stillness, recovery]`, confidence 0.9) resonates at 0.9
with an input identical to its template. -/
theorem resonance_of_identical_template_not_one :
    HASR.calculateResonance ["calm", "stillness", "recovery"]
        ["calm", "stillness", "recovery"] (some (9/10)) = 9/10 ∧
    (9/10 : ℚ) ≠ 1 := by
  constructor
  · norm_num +decide [HASR.calculateResonance, HASR.confidenceOrOne]
  · norm_num

/-- C2 (amended): against an input whose feature set equals the pattern's
template, the normalized-overlap factor is exactly 1 (intersection = union),
so the resonance equals the pattern's confidence (`confidence || 1`); it is
1.0 only when that confidence is 1 (or missing/zero). -/
theorem resonance_of_identical_template_eq_confidence (fs : List String) (c : Option ℚ)
    (h : fs ≠ []) :
    HASR.calculateResonance fs fs c = HASR.confidenceOrOne c := by
  obtain ⟨a, rest, rfl⟩ := List.exists_cons_of_ne_nil h
  have hcard : (a :: rest).toFinset.card ≠ 0 := by
    have : a ∈ (a :: rest).toFinset := by simp
    exact Nat.pos_iff_ne_zero.mp (Finset.card_pos.mpr ⟨a, this⟩)
  simp only [HASR.calculateResonance, Finset.inter_self, Finset.union_self]
  rw [if_neg hcard, div_self (by exact_mod_cast hcard), one_mul]

/-- Witness for C2: a one-feature pattern at confidence 0.5. -/
theorem resonance_identical_witness :
    HASR.calculateResonance ["a"] ["a"] (some (1/2)) = HASR.confidenceOrOne (some (1/2)) :=
  resonance_of_identical_template_eq_confidence ["a"] (some (1/2)) (by decide)

/-! ### C3 -/

theorem byImportanceDesc_total (a b : MPU.Mem) :
    MPU.byImportanceDesc a b = true ∨ MPU.byImportanceDesc b a = true := by
  simp only [MPU.byImportanceDesc, decide_eq_true_eq]
  exact le_total b.importance a.importance

theorem byImportanceDesc_trans (a b c : MPU.Mem)
    (h1 : MPU.byImportanceDesc a b = true) (h2 : MPU.byImportanceDesc b c = true) :
    MPU.byImportanceDesc a c = true := by
  simp only [MPU.byImportanceDesc, decide_eq_true_eq] at *
  exact h2.trans h1

theorem byTimestampDesc_total (a b : MPU.Mem) :
    MPU.byTimestampDesc a b = true ∨ MPU.byTimestampDesc b a = true := by
  simp only [MPU.byTimestampDesc, decide_eq_true_eq]
  exact le_total b.timestamp a.timestamp

theorem byTimestampDesc_trans (a b c : MPU.Mem)
    (h1 : MPU.byTimestampDesc a b = true) (h2 : MPU.byTimestampDesc b c = true) :
    MPU.byTimestampDesc a c = true := by
  simp only [MPU.byTimestampDesc, decide_eq_true_eq] at *
  exact h2.trans h1

/-- Counterexample for C3: after an eviction the episodic partition is sorted
newest-first (`(a, b) => b.timestamp - a.timestamp`), i.e. *reverse*
chronological order, not back to the chronological (oldest-first) order in
which episodic records are pushed. -/
theorem episodic_evicted_order_not_chronological :
    (MPU.storeEpisodicMemory 2 [⟨9/10, 1, none⟩, ⟨4/5, 2, none⟩] ⟨7/10, 3, none⟩).map
        MPU.Mem.timestamp = [2, 1] ∧
    ¬ List.Pairwise (fun a b : ℤ => a ≤ b) [(2 : ℤ), 1] := by
  constructor
  · norm_num +decide [MPU.storeEpisodicMemory, stableSortBy, stableInsert,
      MPU.byImportanceDesc, MPU.byTimestampDesc]
  · decide

/-- C3 (amended): after any episodic store the partition holds at most `cap`
records; when the store overflows the cap, the surviving records are
pairwise at-least-as-important as every dropped record, and the partition is
re-sorted to *reverse* chronological (newest-first) order. -/
theorem episodic_store_cap_and_eviction (cap : ℕ) (mems : List MPU.Mem) (m : MPU.Mem) :
    (MPU.storeEpisodicMemory cap mems m).length ≤ cap ∧
    ((mems ++ [m]).length > cap →
      ((MPU.storeEpisodicMemory cap mems m).Pairwise
          (fun a b => b.timestamp ≤ a.timestamp) ∧
       ∀ b ∈ mems ++ [m], b ∉ MPU.storeEpisodicMemory cap mems m →
         ∀ a ∈ MPU.storeEpisodicMemory cap mems m, b.importance ≤ a.importance)) := by
  by_cases hover : (mems ++ [m]).length > cap
  · have hres : MPU.storeEpisodicMemory cap mems m =
        stableSortBy MPU.byTimestampDesc
          ((stableSortBy MPU.byImportanceDesc (mems ++ [m])).take cap) := by
      simp only [MPU.storeEpisodicMemory]
      rw [if_pos hover]
    refine ⟨?_, fun _ => ⟨?_, ?_⟩⟩
    · rw [hres, length_stableSortBy, List.length_take]
      exact min_le_left _ _
    · rw [hres]
      exact (stableSortBy_pairwise MPU.byTimestampDesc byTimestampDesc_total
        byTimestampDesc_trans _).imp
        (fun hab => by simpa [MPU.byTimestampDesc, decide_eq_true_eq] using hab)
    · intro b hb hnb a ha
      rw [hres] at hnb ha
      have hperm := stableSortBy_perm MPU.byTimestampDesc
        ((stableSortBy MPU.byImportanceDesc (mems ++ [m])).take cap)
      have ha' : a ∈ (stableSortBy MPU.byImportanceDesc (mems ++ [m])).take cap :=
        hperm.subset ha
      have hb1 : b ∈ stableSortBy MPU.byImportanceDesc (mems ++ [m]) :=
        (stableSortBy_perm MPU.byImportanceDesc (mems ++ [m])).mem_iff.mpr hb
      have hb2 : b ∉ (stableSortBy MPU.byImportanceDesc (mems ++ [m])).take cap :=
        fun hmem => hnb (hperm.symm.subset hmem)
      have hb3 : b ∈ (stableSortBy MPU.byImportanceDesc (mems ++ [m])).drop cap := by
        have hsplit := List.take_append_drop cap (stableSortBy MPU.byImportanceDesc (mems ++ [m]))
        rcases List.mem_append.mp (hsplit ▸ hb1) with h | h
        exacts [absurd h hb2, h]
      have hpw := stableSortBy_pairwise MPU.byImportanceDesc byImportanceDesc_total
        byImportanceDesc_trans (mems ++ [m])
      rw [← List.take_append_drop cap (stableSortBy MPU.byImportanceDesc (mems ++ [m]))] at hpw
      have := (List.pairwise_append.mp hpw).2.2 a ha' b hb3
      simpa [MPU.byImportanceDesc, decide_eq_true_eq] using this
  · have hres : MPU.storeEpisodicMemory cap mems m = mems ++ [m] := by
      simp only [MPU.storeEpisodicMemory]
      rw [if_neg hover]
    refine ⟨?_, fun hc => absurd hc hover⟩
    rw [hres]
    exact Nat.le_of_not_lt hover

/-- Witness for C3: a cap-1 store overflowed by a second record; the less
important record is dropped and the survivor dominates it. -/
theorem episodic_store_witness :
    (MPU.storeEpisodicMemory 1 [⟨1, 5, none⟩] ⟨1/2, 6, none⟩).length ≤ 1 ∧
    (MPU.storeEpisodicMemory 1 [⟨1, 5, none⟩] ⟨1/2, 6, none⟩).Pairwise
      (fun a b => b.timestamp ≤ a.timestamp) ∧
    (MPU.Mem.mk (1/2) 6 none).importance ≤ (MPU.Mem.mk 1 5 none).importance := by
  have h := episodic_store_cap_and_eviction 1 [⟨1, 5, none⟩] ⟨1/2, 6, none⟩
  have h2 := h.2 (by decide)
  refine ⟨h.1, h2.1, ?_⟩
  exact h2.2 ⟨1/2, 6, none⟩ (by simp)
    (by norm_num +decide [MPU.storeEpisodicMemory, stableSortBy, stableInsert,
      MPU.byImportanceDesc, MPU.byTimestampDesc])
    ⟨1, 5, none⟩
    (by norm_num +decide [MPU.storeEpisodicMemory, stableSortBy, stableInsert,
      MPU.byImportanceDesc, MPU.byTimestampDesc])

/-! ### C4 -/

theorem mem_insertUniq (l : List String) (y x : String) :
    x ∈ HASR.insertUniq l y ↔ x ∈ l ∨ x = y := by
  by_cases hy : y ∈ l
  · simp only [HASR.insertUniq, if_pos hy]
    constructor
    · exact Or.inl
    · rintro (h | rfl)
      exacts [h, hy]
  · simp [HASR.insertUniq, hy]

theorem mem_foldl_insertUniq (l : List String) :
    ∀ (acc : List String) (x : String), x ∈ l.foldl HASR.insertUniq acc ↔ x ∈ acc ∨ x ∈ l := by
  induction l with
  | nil => intro acc x; simp
  | cons y ys ih =>
    intro acc x
    rw [List.foldl_cons, ih (HASR.insertUniq acc y) x, mem_insertUniq]
    simp only [List.mem_cons]
    tauto

theorem mem_firstDedup (l : List String) (x : String) :
    x ∈ HASR.firstDedup l ↔ x ∈ l := by
  simp [HASR.firstDedup, mem_foldl_insertUniq]

/-- Counterexample for C4: reinforcing a pattern that has no recorded
instances yet (all six base patterns start with `instances: []`) skips the
template recompute and forces confidence to 0.5 — so the matched pattern is
*not* updated as the claim states: its template stays `[calm, stillness,
recovery]` instead of the ≥50%-of-instances set `[calm]`, and its confidence
is 0.5 instead of the claimed formula's 0.73. -/
theorem strengthen_fresh_pattern_diverges :
    (HASR.strengthenPattern ⟨["calm", "stillness", "recovery"], 1, 9/10, []⟩ ["calm"]).template
        = ["calm", "stillness", "recovery"] ∧
    HASR.findCommonFeatures [["calm"]] = ["calm"] ∧
    (["calm", "stillness", "recovery"] : List String) ≠ ["calm"] ∧
    (HASR.strengthenPattern ⟨["calm", "stillness", "recovery"], 1, 9/10, []⟩ ["calm"]).confidence
        = 1/2 ∧
    HASR.specConfidenceFormula 1 1 1 ≠ 1/2 := by
  refine ⟨?_, ?_, by decide, ?_, ?_⟩
  · simp only [HASR.strengthenPattern]
    norm_num +decide [HASR.calculatePatternConfidence]
  · norm_num +decide [HASR.findCommonFeatures, HASR.firstDedup, HASR.insertUniq,
      List.count_cons, List.count_nil]
  · simp only [HASR.strengthenPattern]
    norm_num +decide [HASR.calculatePatternConfidence]
  · rw [HASR.specConfidenceFormula]
    norm_num [min_def]

/-- C4 (amended): when the matched pattern already has at least one recorded
instance, `strengthenPattern` appends the input as a new instance,
multiplies strength by the reinforcement factor capped at 1, recomputes the
template as exactly the features occurring in at least 50% of the instances,
and recomputes confidence as
`(template-size ÷ distinct-feature-count) × 0.7 + min(1, instanceCount/10) × 0.3`. -/
theorem strengthen_pattern_updates (p : HASR.Pattern) (inst : List String) (f : String)
    (h : p.instances ≠ []) :
    (HASR.strengthenPattern p inst).instances = p.instances ++ [inst] ∧
    (HASR.strengthenPattern p inst).strength = min 1 (p.strength * HASR.reinforcementFactor) ∧
    (HASR.strengthenPattern p inst).template = HASR.findCommonFeatures (p.instances ++ [inst]) ∧
    (f ∈ HASR.findCommonFeatures (p.instances ++ [inst]) ↔
      f ∈ (p.instances ++ [inst]).flatten ∧
        ((p.instances ++ [inst]).flatten.count f : ℚ) ≥
          ((p.instances ++ [inst]).length : ℚ) * (1 / 2)) ∧
    (HASR.strengthenPattern p inst).confidence =
      HASR.specConfidenceFormula (HASR.findCommonFeatures (p.instances ++ [inst])).length
        (HASR.distinctFeatureCount (p.instances ++ [inst])) (p.instances.length + 1) := by
  have hpos : 0 < p.instances.length := by
    cases hi : p.instances with
    | nil => exact absurd hi h
    | cons a t => simp
  have hne2 : p.instances ++ [inst] ≠ [] := by simp
  refine ⟨?_, ?_, ?_, ?_, ?_⟩
  · simp [HASR.strengthenPattern, hpos]
  · simp [HASR.strengthenPattern, hpos]
  · simp [HASR.strengthenPattern, hpos]
  · rw [HASR.findCommonFeatures, if_neg hne2]
    simp [List.mem_filter, mem_firstDedup, ge_iff_le]
  · have hgt : (p.instances ++ [inst]).length > 1 := by
      simp only [List.length_append, List.length_singleton]
      omega
    have hnotlt : ¬ (p.instances ++ [inst]).length < 2 := by
      simp only [List.length_append, List.length_singleton]
      omega
    simp only [HASR.strengthenPattern]
    rw [if_pos hgt]
    simp only [HASR.calculatePatternConfidence, HASR.specConfidenceFormula,
      HASR.distinctFeatureCount]
    rw [if_neg hnotlt]
    simp [List.length_append]

/-- Witness for C4: a one-instance pattern `⟨[a], 1/2, 1/2, [[a]]⟩`
reinforced with another `[a]` instance. -/
theorem strengthen_pattern_witness :
    (HASR.strengthenPattern ⟨["a"], 1/2, 1/2, [["a"]]⟩ ["a"]).instances = [["a"]] ++ [["a"]] ∧
    (HASR.strengthenPattern ⟨["a"], 1/2, 1/2, [["a"]]⟩ ["a"]).strength =
      min 1 ((1 : ℚ)/2 * HASR.reinforcementFactor) ∧
    (HASR.strengthenPattern ⟨["a"], 1/2, 1/2, [["a"]]⟩ ["a"]).template =
      HASR.findCommonFeatures ([["a"]] ++ [["a"]]) ∧
    ("a" ∈ HASR.findCommonFeatures ([["a"]] ++ [["a"]]) ↔
      "a" ∈ ([["a"]] ++ [["a"]]).flatten ∧
        ((([["a"]] ++ [["a"]]).flatten.count "a" : ℚ) ≥
          ((([["a"]] ++ [["a"]]) : List (List String)).length : ℚ) * (1 / 2))) ∧
    (HASR.strengthenPattern ⟨["a"], 1/2, 1/2, [["a"]]⟩ ["a"]).confidence =
      HASR.specConfidenceFormula (HASR.findCommonFeatures ([["a"]] ++ [["a"]])).length
        (HASR.distinctFeatureCount ([["a"]] ++ [["a"]])) ([["a"]].length + 1) :=
  strengthen_pattern_updates ⟨["a"], 1/2, 1/2, [["a"]]⟩ ["a"] "a" (by simp)

/-! ### C6 -/

/-- Counterexample for C6: merging a semantic record whose `connections`
repeat an existing association concatenates the arrays — the merged record
holds `["x", "x"]`, a duplicate, so the association lists are *not* unioned
as sets. -/
theorem semantic_merge_connections_duplicate :
    MPU.storeSemanticMemory 500 [("cat", ⟨some 1, ["x"]⟩)] "cat" ⟨some (2/5), ["x"]⟩
      = [("cat", ⟨some (11/10), ["x", "x"]⟩)] ∧
    ¬ (["x", "x"] : List String).Nodup := by
  constructor
  · norm_num +decide [MPU.storeSemanticMemory, MPU.mergeSem, MPU.strengthOrOne, mapGet, mapSet]
  · decide

/-- C6 (amended): storing a semantic record under an existing key merges
instead of duplicating — the entry count is unchanged, the stored strength
becomes `(existing.strength || 1) + 0.1`, and the associations are the
*concatenation* of the two lists (duplicates possible). -/
theorem semantic_merge_no_growth (cap : ℕ) (sem : List (String × MPU.SemMem)) (key : String)
    (memory existing : MPU.SemMem)
    (hex : mapGet sem key = some existing) (hcap : sem.length ≤ cap) :
    (MPU.storeSemanticMemory cap sem key memory).length = sem.length ∧
    mapGet (MPU.storeSemanticMemory cap sem key memory) key =
      some ⟨some (MPU.strengthOrOne existing.strength + 1 / 10),
            existing.connections ++ memory.connections⟩ := by
  have hlen : (mapSet sem key (MPU.mergeSem existing memory)).length = sem.length :=
    length_mapSet_of_get sem key _ existing hex
  have hnot : ¬ (mapSet sem key (MPU.mergeSem existing memory)).length > cap := by
    rw [hlen]; omega
  simp only [MPU.storeSemanticMemory, hex]
  rw [if_neg hnot]
  exact ⟨hlen, by rw [mapGet_mapSet_self]; rfl⟩

/-- Witness for C6: a one-entry semantic store merged with a same-key record. -/
theorem semantic_merge_witness :
    (MPU.storeSemanticMemory 500 [("cat", ⟨some 1, ["x"]⟩)] "cat" ⟨none, ["y"]⟩).length
        = [("cat", (⟨some 1, ["x"]⟩ : MPU.SemMem))].length ∧
    mapGet (MPU.storeSemanticMemory 500 [("cat", ⟨some 1, ["x"]⟩)] "cat" ⟨none, ["y"]⟩) "cat" =
      some ⟨some (MPU.strengthOrOne (some 1) + 1/10), ["x"] ++ ["y"]⟩ :=
  semantic_merge_no_growth 500 [("cat", ⟨some 1, ["x"]⟩)] "cat" ⟨none, ["y"]⟩ ⟨some 1, ["x"]⟩
    (by simp [mapGet]) (by norm_num)

/-! ### C9 -/

theorem processSymbol_lastWonderTime (s : Wonder.WonderState) (now : ℤ) (sym : Wonder.Symbol) :
    (Wonder.processSymbol s now sym).lastWonderTime = s.lastWonderTime := by
  rcases h : mapGet s.discoveries sym.concept with _ | d <;> simp [Wonder.processSymbol, h]

theorem foldl_processSymbol_lastWonderTime (now : ℤ) (syms : List Wonder.Symbol)
    (s : Wonder.WonderState) :
    (syms.foldl (fun acc sym => Wonder.processSymbol acc now sym) s).lastWonderTime
      = s.lastWonderTime := by
  induction syms generalizing s with
  | nil => rfl
  | cons a t ih =>
    rw [List.foldl_cons, ih (Wonder.processSymbol s now a), processSymbol_lastWonderTime]

theorem processExploration_lastWonderTime (s : Wonder.WonderState) (now : ℤ)
    (e : Wonder.Exploration) :
    (Wonder.processExploration s now e).lastWonderTime = s.lastWonderTime := by
  simp [Wonder.processExploration, foldl_processSymbol_lastWonderTime]

theorem explore_success_lastWonderTime (s : Wonder.WonderState) (now : ℤ)
    (syms : List Wonder.Symbol) (h : Wonder.canWonder s now = true) :
    (Wonder.explore s now syms).2.lastWonderTime = now := by
  simp only [Wonder.explore, if_pos h]
  rw [processExploration_lastWonderTime]

theorem explore_blocked (s : Wonder.WonderState) (now : ℤ) (syms : List Wonder.Symbol)
    (h : Wonder.canWonder s now = false) :
    Wonder.explore s now syms = (none, s) := by
  simp [Wonder.explore, h]

theorem explore_returns_some (s : Wonder.WonderState) (now : ℤ) (syms : List Wonder.Symbol)
    (h : Wonder.canWonder s now = true) :
    (Wonder.explore s now syms).1.isSome = true := by
  simp [Wonder.explore, h]

/-- C9: after a successful `explore` at `t1`, a second call within the
cooldown window returns `null` and leaves the whole engine state — in
particular the exploration queue and the curiosity level — unchanged, while
a call after the cooldown has elapsed succeeds and returns an Exploration
record. -/
theorem explore_cooldown_behavior (s : Wonder.WonderState) (t1 t2 t3 : ℤ)
    (syms1 syms2 syms3 : List Wonder.Symbol)
    (h1 : t1 - s.lastWonderTime > Wonder.wonderCooldown)
    (h2 : t2 - t1 ≤ Wonder.wonderCooldown)
    (h3 : t3 - t1 > Wonder.wonderCooldown) :
    (Wonder.explore s t1 syms1).1.isSome = true ∧
    Wonder.explore (Wonder.explore s t1 syms1).2 t2 syms2 =
      (none, (Wonder.explore s t1 syms1).2) ∧
    (Wonder.explore (Wonder.explore s t1 syms1).2 t3 syms3).1.isSome = true := by
  have hc1 : Wonder.canWonder s t1 = true := by
    simp only [Wonder.canWonder, decide_eq_true_eq]
    exact h1
  have hLW := explore_success_lastWonderTime s t1 syms1 hc1
  have hc2 : Wonder.canWonder (Wonder.explore s t1 syms1).2 t2 = false := by
    simp only [Wonder.canWonder, hLW, decide_eq_false_iff_not]
    omega
  have hc3 : Wonder.canWonder (Wonder.explore s t1 syms1).2 t3 = true := by
    simp only [Wonder.canWonder, hLW, decide_eq_true_eq]
    exact h3
  exact ⟨explore_returns_some s t1 syms1 hc1, explore_blocked _ t2 syms2 hc2,
    explore_returns_some _ t3 syms3 hc3⟩

/-- Witness for C9: a fresh engine (last wonder at 0), explored at 6000,
re-explored at 9000 (blocked) and at 12000 (allowed). -/
theorem explore_cooldown_witness :
    (Wonder.explore ⟨3/5, [], [], [], 0, [], 0, 0, 0⟩ 6000 [⟨"sym"⟩]).1.isSome = true ∧
    Wonder.explore (Wonder.explore ⟨3/5, [], [], [], 0, [], 0, 0, 0⟩ 6000 [⟨"sym"⟩]).2
        9000 [⟨"sym"⟩] =
      (none, (Wonder.explore ⟨3/5, [], [], [], 0, [], 0, 0, 0⟩ 6000 [⟨"sym"⟩]).2) ∧
    (Wonder.explore (Wonder.explore ⟨3/5, [], [], [], 0, [], 0, 0, 0⟩ 6000 [⟨"sym"⟩]).2
        12000 [⟨"sym"⟩]).1.isSome = true :=
  explore_cooldown_behavior ⟨3/5, [], [], [], 0, [], 0, 0, 0⟩ 6000 9000 12000
    [⟨"sym"⟩] [⟨"sym"⟩] [⟨"sym"⟩] (by decide) (by decide) (by decide)

end LucianPets
